import Mathlib

/-!
Verification of the Monte Carlo π-estimation notebook
(`src/montecarlo/pi_estimation/pi_estimation.ipynb`).

The notebook defines a module constant `MAP_INSTANCES = 100`, and a class
`EstimatePI` with a class attribute `randomize_per_map = 10000000`, a
sampler `randomize_points` and a reducer `process_in_circle_points`.

Embedding conventions:
* Python floats are modelled as rationals (`ℚ`); the Python `float(...)`
  conversion of an exact int-division result is the identity in this model.
* Python's true division `/` raises `ZeroDivisionError` on a zero divisor,
  so it is embedded as the `Option`-valued `pydiv`; `none` models the raised
  exception, `some q` a normally returned value.
* The global random-number generator consumed by `random()` is modelled as
  an explicit stream `g : ℕ → ℚ` of successive draws; the i-th loop
  iteration of `randomize_points` consumes draws `g (2*i)` (for `x`) and
  `g (2*i+1)` (for `y`), exactly in the order the source calls `random()`.
* The class attribute `randomize_per_map` (trials per task) is an explicit
  parameter `rpm` of the sampler, with `randomize_per_map` its default
  value, mirroring that the attribute is configurable on the class.
-/

/-- Python true division: `a / b`, raising (modelled as `none`) when the
divisor is zero. -/
def pydiv (a b : ℚ) : Option ℚ :=
  if b = 0 then none else some (a / b)

/-- `MAP_INSTANCES = 100`: module-level constant, the number of parallel
map invocations. -/
def MAP_INSTANCES : ℕ := 100

namespace EstimatePI

/-- `randomize_per_map = 10000000`: class attribute, the number of random
points drawn by a single map invocation. -/
def randomize_per_map : ℕ := 10000000

/-- `EstimatePI.predicate`: draws `x = random()` and `y = random()` and
returns `(x ** 2) + (y ** 2) <= 1`.  The two draws are passed explicitly. -/
def predicate (x y : ℚ) : Bool :=
  decide (x ^ 2 + y ^ 2 ≤ 1)

/-- `EstimatePI.randomize_points(self, data)`: starting from `in_circle = 0`,
loops `rpm` times adding the boolean `predicate()` (Python coerces the
boolean to 0 or 1), then returns `float(in_circle / rpm)`.  `rpm` stands
for `self.randomize_per_map`; `g` is the random stream; `data` is the
placeholder argument, unused by the body. -/
def randomize_points (rpm : ℕ) (data : ℤ) (g : ℕ → ℚ) : Option ℚ :=
  let in_circle : ℕ :=
    (List.range rpm).foldl
      (fun acc i => acc + (if predicate (g (2 * i)) (g (2 * i + 1)) then 1 else 0)) 0
  pydiv (in_circle : ℚ) (rpm : ℚ)

/-- `EstimatePI.process_in_circle_points(self, results)`: starting from
`in_circle_percent = 0`, adds every `map_result` in `results`, then returns
`float(4 * (in_circle_percent / MAP_INSTANCES))`.  The divisor is the
module constant `MAP_INSTANCES`, not the length of `results`. -/
def process_in_circle_points (results : List ℚ) : Option ℚ :=
  let in_circle_percent : ℚ := results.foldl (· + ·) 0
  (pydiv in_circle_percent (MAP_INSTANCES : ℚ)).map (fun q => 4 * q)

end EstimatePI

/-- `iterdata = [0] * MAP_INSTANCES`: the dispatch list of placeholder
inputs, one per map task. -/
def iterdata : List ℤ := List.replicate MAP_INSTANCES 0

/-- Specification-side sampler (from the spec words, for the refinement
claim C1): count the indices `i < T` whose pair `(g (2*i), g (2*i+1))`
satisfies `x² + y² ≤ 1`, and divide that count by `T`. -/
def samplerSpec (T : ℕ) (g : ℕ → ℚ) : ℚ :=
  (((List.range T).countP
      (fun i => decide ((g (2 * i)) ^ 2 + (g (2 * i + 1)) ^ 2 ≤ 1)) : ℕ) : ℚ) / (T : ℚ)

/- ### Helper lemmas -/

/-- Folding `acc + (if p i then 1 else 0)` over a list counts the elements
satisfying `p`. -/
theorem foldl_add_ite_eq_countP (p : ℕ → Bool) :
    ∀ (l : List ℕ) (n : ℕ),
      l.foldl (fun acc i => acc + (if p i then 1 else 0)) n = n + l.countP p := by
  intro l
  induction l with
  | nil => intro n; simp
  | cons a t ih =>
      intro n
      simp only [List.foldl_cons, List.countP_cons, ih]
      cases h : p a <;> simp <;> omega

/-- Folding `+` over a list of rationals from an accumulator adds the
list sum to the accumulator. -/
theorem foldl_add_eq_add_sum :
    ∀ (l : List ℚ) (a : ℚ), l.foldl (· + ·) a = a + l.sum := by
  intro l
  induction l with
  | nil => intro a; simp
  | cons x t ih =>
      intro a
      simp only [List.foldl_cons, List.sum_cons, ih]
      ring

/-- The sampler count over `T` iterations is at most `T`. -/
theorem sampler_count_le (p : ℕ → Bool) (T : ℕ) :
    (List.range T).countP p ≤ T := by
  simpa using List.countP_le_length (p := p) (l := List.range T)

/- ### Claims -/

/-- Claim C1: for every trial count `T > 0`, `randomize_points` returns
exactly the number of drawn pairs `(x, y)` with `x² + y² ≤ 1` divided by
`T` (the specification-side `samplerSpec`). -/
theorem randomize_points_counts_and_divides
    (T : ℕ) (data : ℤ) (g : ℕ → ℚ) (hT : 0 < T) :
    EstimatePI.randomize_points T data g = some (samplerSpec T g) := by
  unfold EstimatePI.randomize_points samplerSpec pydiv
  have hT0 : (T : ℚ) ≠ 0 := by exact_mod_cast hT.ne'
  simp only [hT0, if_false]
  congr 1
  rw [foldl_add_ite_eq_countP]
  simp [EstimatePI.predicate]

/-- Witness for C1 at `T = 1`, `data = 0`, the constant-zero stream. -/
theorem randomize_points_counts_and_divides_witness :
    EstimatePI.randomize_points 1 0 (fun _ => 0) = some (samplerSpec 1 (fun _ => 0)) :=
  randomize_points_counts_and_divides 1 0 (fun _ => 0) (by decide)

/-- Claim C2: on a sequence whose length equals `MAP_INSTANCES`, the
reducer returns the arithmetic mean of the sequence multiplied by 4. -/
theorem process_in_circle_points_mean_times_four
    (results : List ℚ) (h : results.length = MAP_INSTANCES) :
    EstimatePI.process_in_circle_points results =
      some (4 * (results.sum / (results.length : ℚ))) := by
  unfold EstimatePI.process_in_circle_points pydiv
  have h100 : ((MAP_INSTANCES : ℕ) : ℚ) ≠ 0 := by
    unfold MAP_INSTANCES; norm_num
  simp only [h100, if_false]
  rw [foldl_add_eq_add_sum, h]
  simp only [zero_add]
  rfl

/-- Witness for C2 on the constant list of one hundred halves. -/
theorem process_in_circle_points_mean_times_four_witness :
    EstimatePI.process_in_circle_points (List.replicate 100 (1 / 2 : ℚ)) =
      some (4 * ((List.replicate 100 (1 / 2 : ℚ)).sum /
        ((List.replicate 100 (1 / 2 : ℚ)).length : ℚ))) :=
  process_in_circle_points_mean_times_four (List.replicate 100 (1 / 2 : ℚ))
    (by simp [MAP_INSTANCES])

/-- Claim C3 counterexample: on the empty sequence the reducer does NOT
raise a division-by-zero error — it returns a value (`none` would model
the raised exception). -/
theorem process_in_circle_points_empty_no_error :
    EstimatePI.process_in_circle_points [] ≠ none := by
  decide

/-- Claim C3 (amended): on the empty sequence the reducer returns the value
`0`, because its divisor is the positive constant `MAP_INSTANCES`, not the
sequence length. -/
theorem process_in_circle_points_empty_eq_zero :
    EstimatePI.process_in_circle_points [] = some 0 := by
  norm_num [EstimatePI.process_in_circle_points, pydiv, MAP_INSTANCES]

/-- Claim C4: the number of map tasks dispatched (the length of `iterdata`)
and the divisor used by the reducer are the same value, `MAP_INSTANCES`:
the reducer always divides the sum of its input by that length. -/
theorem reduce_divides_by_dispatch_count :
    iterdata.length = MAP_INSTANCES ∧
      ∀ results : List ℚ,
        EstimatePI.process_in_circle_points results =
          some (4 * (results.sum / (iterdata.length : ℚ))) := by
  constructor
  · simp [iterdata]
  · intro results
    unfold EstimatePI.process_in_circle_points pydiv
    have h100 : ((MAP_INSTANCES : ℕ) : ℚ) ≠ 0 := by
      unfold MAP_INSTANCES; norm_num
    simp only [h100, if_false, Option.map_some]
    rw [foldl_add_eq_add_sum]
    simp [iterdata]

/-- Claim C5: the reducer is order-independent — applying it to any
permutation of a sequence yields the same result as on the original. -/
theorem process_in_circle_points_perm_invariant
    (l l' : List ℚ) (h : l.Perm l') :
    EstimatePI.process_in_circle_points l' = EstimatePI.process_in_circle_points l := by
  unfold EstimatePI.process_in_circle_points
  rw [foldl_add_eq_add_sum, foldl_add_eq_add_sum, h.sum_eq]

/-- Witness for C5 on a two-element list and its swap. -/
theorem process_in_circle_points_perm_invariant_witness :
    EstimatePI.process_in_circle_points [(1 : ℚ), 0] =
      EstimatePI.process_in_circle_points [(0 : ℚ), 1] :=
  process_in_circle_points_perm_invariant [(0 : ℚ), 1] [(1 : ℚ), 0]
    (List.Perm.swap (1 : ℚ) 0 [])

/-- Claim C6: on the constant sequence of a value `v` repeated
`MAP_INSTANCES` times, the reducer returns exactly `4 * v`. -/
theorem process_in_circle_points_const_seq (v : ℚ) :
    EstimatePI.process_in_circle_points (List.replicate MAP_INSTANCES v) =
      some (4 * v) := by
  unfold EstimatePI.process_in_circle_points pydiv
  have h100 : ((MAP_INSTANCES : ℕ) : ℚ) ≠ 0 := by
    unfold MAP_INSTANCES; norm_num
  simp only [h100, if_false, Option.map_some]
  rw [foldl_add_eq_add_sum, List.sum_replicate, nsmul_eq_mul]
  field_simp

/-- Claim C7: for every trial count `T > 0`, the fraction returned by the
sampler lies in the closed interval `[0, 1]`. -/
theorem randomize_points_mem_unit_interval
    (T : ℕ) (data : ℤ) (g : ℕ → ℚ) (hT : 0 < T) :
    ∃ q : ℚ, EstimatePI.randomize_points T data g = some q ∧ 0 ≤ q ∧ q ≤ 1 := by
  rw [randomize_points_counts_and_divides T data g hT]
  refine ⟨samplerSpec T g, rfl, ?_, ?_⟩
  · unfold samplerSpec
    positivity
  · unfold samplerSpec
    have hTpos : (0 : ℚ) < (T : ℚ) := by exact_mod_cast hT
    rw [div_le_one hTpos]
    exact_mod_cast sampler_count_le _ T

/-- Witness for C7 at `T = 2`, `data = 5`, the constant-zero stream. -/
theorem randomize_points_mem_unit_interval_witness :
    ∃ q : ℚ, EstimatePI.randomize_points 2 5 (fun _ => 0) = some q ∧ 0 ≤ q ∧ q ≤ 1 :=
  randomize_points_mem_unit_interval 2 5 (fun _ => 0) (by decide)

/-- Claim C8: with a single trial per task, the sampler returns either
exactly `0` or exactly `1`, whatever the random draws. -/
theorem randomize_points_single_trial_zero_or_one (data : ℤ) (g : ℕ → ℚ) :
    EstimatePI.randomize_points 1 data g = some 0 ∨
      EstimatePI.randomize_points 1 data g = some 1 := by
  have hb := Bool.eq_false_or_eq_true (EstimatePI.predicate (g 0) (g 1))
  unfold EstimatePI.randomize_points pydiv
  rcases hb with h | h
  · right
    simp [List.range_succ, h]
  · left
    simp [List.range_succ, h]

/-- Claim C9: the placeholder input is ignored — two runs consuming the
same random stream but receiving different `data` arguments return equal
results. -/
theorem randomize_points_ignores_data
    (T : ℕ) (d₁ d₂ : ℤ) (g : ℕ → ℚ) :
    EstimatePI.randomize_points T d₁ g = EstimatePI.randomize_points T d₂ g := by
  rfl

/-- Claim C10: on any sequence of values in `[0, 1]` of length at most
`MAP_INSTANCES`, the reducer returns a value (no error), and that value
lies in `[0, 4]`. -/
theorem process_in_circle_points_bounded
    (results : List ℚ)
    (hmem : ∀ x ∈ results, 0 ≤ x ∧ x ≤ 1)
    (hlen : results.length ≤ MAP_INSTANCES) :
    ∃ q : ℚ, EstimatePI.process_in_circle_points results = some q ∧ 0 ≤ q ∧ q ≤ 4 := by
  have h100 : ((MAP_INSTANCES : ℕ) : ℚ) ≠ 0 := by
    unfold MAP_INSTANCES; norm_num
  have hsum_nonneg : 0 ≤ results.sum :=
    List.sum_nonneg (fun x hx => (hmem x hx).1)
  have hsum_le : results.sum ≤ (results.length : ℚ) := by
    have := List.sum_le_card_nsmul results 1 (fun x hx => (hmem x hx).2)
    simpa [nsmul_eq_mul] using this
  have hlenq : (results.length : ℚ) ≤ (MAP_INSTANCES : ℚ) := by exact_mod_cast hlen
  refine ⟨4 * (results.sum / (MAP_INSTANCES : ℚ)), ?_, ?_, ?_⟩
  · unfold EstimatePI.process_in_circle_points pydiv
    simp only [h100, if_false]
    rw [foldl_add_eq_add_sum]
    simp only [zero_add]
    rfl
  · have hMpos : (0 : ℚ) < (MAP_INSTANCES : ℚ) := by
      unfold MAP_INSTANCES; norm_num
    positivity
  · have hMpos : (0 : ℚ) < (MAP_INSTANCES : ℚ) := by
      unfold MAP_INSTANCES; norm_num
    have hq : results.sum / (MAP_INSTANCES : ℚ) ≤ 1 := by
      rw [div_le_one hMpos]
      exact hsum_le.trans hlenq
    nlinarith

/-- Witness for C10 on the one-element list `[1/2]`. -/
theorem process_in_circle_points_bounded_witness :
    ∃ q : ℚ, EstimatePI.process_in_circle_points [(1 / 2 : ℚ)] = some q ∧
      0 ≤ q ∧ q ≤ 4 :=
  process_in_circle_points_bounded [(1 / 2 : ℚ)]
    (by intro x hx; simp at hx; constructor <;> simp [hx] <;> norm_num)
    (by simp [MAP_INSTANCES])
